import Mathlib

/-!
Verification of the RepoSage pull-request review agent.

The Python sources (analysis_engine.py, app.py, git_services.py, main.py,
config.py) are shallowly embedded below.  Program text is modelled as
`List Char` (named `Text`), mirroring Python strings; external
collaborators (the generative model, the network, `hashlib.md5`,
`datetime.now`) are passed in as explicit function parameters so that the
repository code itself is total and executable.
-/

set_option maxRecDepth 4000

abbrev Text := List Char

/-! Basic text utilities shared by the embedded functions. -/

/-- Python `str.split('\n')`: split a text at every newline; the empty text
yields one empty piece, a trailing newline yields a trailing empty piece. -/
def splitLines : Text → List Text
  | [] => [[]]
  | c :: rest =>
    if c = '\n' then [] :: splitLines rest
    else
      match splitLines rest with
      | l :: ls => (c :: l) :: ls
      | [] => [[c]]

/-- Inverse of `splitLines`: join pieces with a newline between them
(Python `'\n'.join(...)`). -/
def joinLines : List Text → Text
  | [] => []
  | [l] => l
  | l :: ls => l ++ '\n' :: joinLines ls

/-! AnalysisEngine.preprocess_diff (analysis_engine.py lines 15-29). -/

/-- The per-line transformation performed inside the loop of
`preprocess_diff`: metadata lines (prefix `+++` or `---`) pass through,
other `+`/`-` lines get an `ADDED: `/`REMOVED: ` marker, the rest pass
through. -/
def processLine (line : Text) : Text :=
  if "+++".data.isPrefixOf line || "---".data.isPrefixOf line then line
  else if "+".data.isPrefixOf line then "ADDED: ".data ++ line.drop 1
  else if "-".data.isPrefixOf line then "REMOVED: ".data ++ line.drop 1
  else line

/-- `AnalysisEngine.preprocess_diff`: split on newlines, transform each
line, join with newlines. -/
def preprocess_diff (diff_text : Text) : Text :=
  joinLines ((splitLines diff_text).map processLine)

/-! AnalysisEngine.generate_fallback_analysis (analysis_engine.py
lines 113-131). -/

/-- `added_lines`: lines with prefix `+` (this includes `+++` metadata
lines, exactly as `line.startswith('+')` does). -/
def countAdded (diff_text : Text) : Nat :=
  (splitLines diff_text).countP (fun l => "+".data.isPrefixOf l)

/-- `removed_lines`: lines with prefix `-`. -/
def countRemoved (diff_text : Text) : Nat :=
  (splitLines diff_text).countP (fun l => "-".data.isPrefixOf l)

/-- `modified_files`: `re.findall(r'^diff --git', diff_text, re.MULTILINE)`
matches the literal at the start of the text and after each newline, i.e.
once per line whose prefix is `diff --git`. -/
def countFilesChanged (diff_text : Text) : Nat :=
  (splitLines diff_text).countP (fun l => "diff --git".data.isPrefixOf l)

/-- `AnalysisEngine.generate_fallback_analysis`: the deterministic summary
template instantiated with the three counts. -/
def generate_fallback_analysis (diff_text : Text) : Text :=
  "**Automated Analysis Summary**\n\nThis pull request modifies ".data
    ++ (Nat.repr (countFilesChanged diff_text)).data
    ++ " file(s) with ".data
    ++ (Nat.repr (countAdded diff_text)).data
    ++ " additions and ".data
    ++ (Nat.repr (countRemoved diff_text)).data
    ++ " deletions.\n\n**General Recommendations:**\n• Ensure all changes are properly tested\n• Verify no sensitive data is exposed\n• Check for proper error handling\n• Confirm changes align with coding standards\n• Review for potential performance impacts\n\nNote: Detailed AI analysis temporarily unavailable. Manual review recommended for critical changes.".data

/-- Substring test: does `needle` occur contiguously inside `hay`
(Python `needle in hay`)? -/
def containsSub (needle : Text) : Text → Bool
  | [] => needle.isEmpty
  | c :: rest => needle.isPrefixOf (c :: rest) || containsSub needle rest

/-! AnalysisEngine.format_analysis_output (analysis_engine.py
lines 95-111). -/

/-- The whitespace class of Python regular expressions and `str.strip`
(restricted to the ASCII range used throughout this repository). -/
def pySpace (c : Char) : Bool :=
  c = ' ' || c = '\t' || c = '\n' || c = '\r' || c = '\x0b' || c = '\x0c'

/-- Decimal reading of a digit run, as Python `int` does on the substring
matched by a digit group. -/
def digitsToNat (ds : Text) : Nat :=
  ds.foldl (fun n c => n * 10 + (c.toNat - 48)) 0

/-- One Python `str.replace(pattern, repl)` pass: replace every
non-overlapping occurrence of the (non-empty) pattern `p :: ps`, scanning
left to right.  The fuel argument only drives the recursion; every step
consumes at least one character, so `fuel = length` never runs out. -/
def replaceAllFuel (p : Char) (ps repl : Text) : Nat → Text → Text
  | _, [] => []
  | 0, t => t
  | fuel + 1, c :: rest =>
    if (p :: ps).isPrefixOf (c :: rest) then
      repl ++ replaceAllFuel p ps repl fuel (rest.drop ps.length)
    else c :: replaceAllFuel p ps repl fuel rest

def replaceAll (p : Char) (ps repl t : Text) : Text :=
  replaceAllFuel p ps repl t.length t

/-- The literal part of the pattern `Recommendation Score:\s*(\d+)`. -/
def scoreLit : Text := "Recommendation Score:".data

/-- Match the score pattern at the current position: the literal, then a
greedy whitespace run, then a non-empty greedy digit run (the group).
Returns the group value and the rest of the text after the match. -/
def matchScoreAt (cs : Text) : Option (Nat × Text) :=
  if scoreLit.isPrefixOf cs then
    let r2 := (cs.drop scoreLit.length).dropWhile pySpace
    let ds := r2.takeWhile Char.isDigit
    if ds.isEmpty then none
    else some (digitsToNat ds, r2.dropWhile Char.isDigit)
  else none

/-- `re.search(score_pattern, text)`: value of the group at the leftmost
match, if any. -/
def findScore : Text → Option Nat
  | [] => none
  | c :: rest =>
    match matchScoreAt (c :: rest) with
    | some (n, _) => some n
    | none => findScore rest

/-- `re.sub(score_pattern, repl, text)`: replace every non-overlapping
occurrence, scanning left to right.  A match consumes at least the
21-character literal, so `fuel = length` never runs out. -/
def subScoreFuel (repl : Text) : Nat → Text → Text
  | _, [] => []
  | 0, t => t
  | fuel + 1, c :: rest =>
    match matchScoreAt (c :: rest) with
    | some (_, rem) => repl ++ subScoreFuel repl fuel rem
    | none => c :: subScoreFuel repl fuel rest

def subScore (repl t : Text) : Text := subScoreFuel repl t.length t

/-- The emoji chosen for a score: ✅ for at least 8, ⚠️ for 5 to 7,
❌ otherwise. -/
def scoreEmoji (score : Nat) : Text :=
  if 8 ≤ score then "✅".data else if 5 ≤ score then "⚠️".data else "❌".data

/-- The replacement text `**Recommendation Score: {score}/10 {emoji}**`. -/
def scoreRepl (score : Nat) : Text :=
  "**Recommendation Score: ".data ++ (Nat.repr score).data ++ "/10 ".data
    ++ scoreEmoji score ++ "**".data

/-- The score-rewriting step of `format_analysis_output`: if the pattern
occurs, every occurrence is replaced using the first occurrence's score;
otherwise the text passes through. -/
def scoreStep (t : Text) : Text :=
  match findScore t with
  | some score => subScore (scoreRepl score) t
  | none => t

/-- Match `\n\s*\n` at the current position: a newline, then the greedy
whitespace run shortened (by backtracking) to end just before its last
newline, then that newline.  Returns the rest after the match, or `none`
when the whitespace run after the first newline holds no newline. -/
def matchBlankAt : Text → Option Text
  | '\n' :: rest =>
    let wrev := (rest.takeWhile pySpace).reverse
    match wrev.dropWhile (fun c => c ≠ '\n') with
    | [] => none
    | _ :: _ =>
      some ((wrev.takeWhile (fun c => c ≠ '\n')).reverse ++ rest.dropWhile pySpace)
  | _ => none

/-- `re.sub(r'\n\s*\n', '\n\n', text)`.  A match consumes at least two
characters, so `fuel = length` never runs out. -/
def collapseBlankFuel : Nat → Text → Text
  | _, [] => []
  | 0, t => t
  | fuel + 1, c :: rest =>
    match matchBlankAt (c :: rest) with
    | some rem => '\n' :: '\n' :: collapseBlankFuel fuel rem
    | none => c :: collapseBlankFuel fuel rest

def collapseBlank (t : Text) : Text := collapseBlankFuel t.length t

/-- `AnalysisEngine.format_analysis_output`: normalize `## ` and `### `
heading markers to `**`, rewrite the recommendation score, collapse blank
line runs. -/
def format_analysis_output (raw_output : Text) : Text :=
  collapseBlank (scoreStep
    (replaceAll '#' "## ".data "**".data
      (replaceAll '#' "# ".data "**".data raw_output)))

/-! AnalysisEngine.analyze_code_changes (analysis_engine.py lines 57-93).
The generative model, the `hashlib.md5` hex digest and `datetime.now` are
external collaborators and enter as explicit parameters; a model call that
raises is an `Except.error`. -/

/-- One entry of `self.analysis_history`. -/
structure AnalysisRecord where
  timestamp : Text
  diff_hash : Text
  diff_size : Nat
  success : Bool
  error : Option Text
deriving DecidableEq

/-- The engine's mutable state: the append-only run history. -/
structure EngineState where
  analysis_history : List AnalysisRecord
deriving DecidableEq

/-- `AnalysisEngine.generate_structured_prompt` (lines 31-55): the fixed
review rubric, the optional extension, and the preprocessed diff in a
fenced block. -/
def generate_structured_prompt (diff_text review_extension : Text) : Text :=
  "You are an experienced software architect conducting a thorough code review.\nAnalyze the provided code changes systematically and provide actionable feedback.\n\nReview Framework:\n1. Critical Issues: Bugs, logic errors, runtime exceptions, memory leaks\n2. Security Analysis: Authentication flaws, injection risks, data exposure\n3. Code Quality: Design patterns, SOLID principles, DRY violations\n4. Performance: Algorithm efficiency, database queries, resource usage\n5. Maintainability: Code clarity, documentation, test coverage implications\n6. Best Practices: Industry standards, framework conventions, error handling\n\n".data
    ++ review_extension
    ++ "\nStructure your response as follows:\n- Executive Summary (2-3 sentences)\n- Critical Issues (if any)\n- Improvements Suggested\n- Positive Observations\n- Recommendation Score (1-10)\n\nCode Diff:\n```diff\n".data
    ++ preprocess_diff diff_text
    ++ "\n```".data

/-- `AnalysisEngine.analyze_code_changes`: reject an empty diff with a
terminal message; otherwise call the model on the structured prompt,
record one `AnalysisRecord` whatever the outcome, and return the formatted
model output on success or the deterministic fallback summary when the
model call raises. -/
def analyze_code_changes (md5hex : Text → Text) (now : Text)
    (model : Text → Except Text Text) (st : EngineState)
    (diff_text review_extension : Text) : Text × EngineState :=
  if diff_text = [] then ("Unable to analyze: diff text is empty.".data, st)
  else
    let diff_hash := (md5hex diff_text).take 8
    let prompt := generate_structured_prompt diff_text review_extension
    match model prompt with
    | Except.ok response =>
      (format_analysis_output response,
        { analysis_history := st.analysis_history
            ++ [⟨now, diff_hash, diff_text.length, true, none⟩] })
    | Except.error e =>
      (generate_fallback_analysis diff_text,
        { analysis_history := st.analysis_history
            ++ [⟨now, diff_hash, diff_text.length, false, some e⟩] })

/-! Batch orchestration (main.py lines 78-110).  The provider fetch and the
engine call are external effects and enter as function parameters:
`fetch pr` models `git_service.get_pull_request_diff(pr)` and
`engineAnalyze diff` models `analysis_engine.analyze_code_changes(diff, "")`
(batch mode always uses the default `standard` depth, whose extension is
empty).  `datetime.now` and the configured repository enter as the `now`,
`repository` and `git_server` parameters of `generate_report`. -/

/-- The report dict built by `PRReviewOrchestrator.generate_report`
(metadata defaults to the empty dict in batch mode and is not modelled
beyond the fields the batch flow fills in). -/
structure ReviewReport where
  timestamp : Text
  git_server : Text
  repository : Text
  pr_number : Nat
  analysis : Text
deriving DecidableEq

/-- One entry of the `results` list of `run_batch_analysis`. -/
structure BatchResult where
  pr_number : Nat
  status : Text
  error : Option Text
  report : Option ReviewReport
deriving DecidableEq

/-- `PRReviewOrchestrator.analyze_changes` at default depth: run the
engine, then treat an output containing `Unable to analyze` or
`Analysis failed` as an error (returns `None`). -/
def analyze_changes (engineAnalyze : Text → Text) (diff_text : Text) : Option Text :=
  let analysis_result := engineAnalyze diff_text
  if containsSub "Unable to analyze".data analysis_result
      || containsSub "Analysis failed".data analysis_result then none
  else some analysis_result

/-- One iteration of the loop of `run_batch_analysis`: fetch (a `None` or
empty diff is a fetch failure, as in `fetch_pr_diff`), analyze (a `None`
or empty result is an analysis failure), else record a success with its
report. -/
def run_batch_step (fetch : Nat → Option Text) (engineAnalyze : Text → Text)
    (now repository git_server : Text) (pr : Nat) : BatchResult :=
  match fetch pr with
  | none => ⟨pr, "failed".data, some "Could not fetch diff".data, none⟩
  | some diff =>
    if diff = [] then ⟨pr, "failed".data, some "Could not fetch diff".data, none⟩
    else
      match analyze_changes engineAnalyze diff with
      | none => ⟨pr, "failed".data, some "Analysis failed".data, none⟩
      | some analysis =>
        if analysis = [] then ⟨pr, "failed".data, some "Analysis failed".data, none⟩
        else ⟨pr, "success".data, none,
          some ⟨now, git_server, repository, pr, analysis⟩⟩

/-- `run_batch_analysis` (after successful service initialization): the
loop appends exactly one result per PR number and never aborts early.
The trailing `post_review` call of each successful iteration only prints
and posts the comment; it never touches the `results` list and is
therefore not part of this model. -/
def run_batch_analysis (fetch : Nat → Option Text) (engineAnalyze : Text → Text)
    (now repository git_server : Text) : List Nat → List BatchResult
  | [] => []
  | pr :: rest =>
    run_batch_step fetch engineAnalyze now repository git_server pr
      :: run_batch_analysis fetch engineAnalyze now repository git_server rest

/-! GitServiceFactory and the provider variants (git_services.py).  The
only token in the configuration is `config.GITHUB_TOKEN` (config.py); it
enters as the `github_token` parameter. -/

/-- The three provider variants of the `services` dict. -/
inductive ProviderKind
  | github
  | gitlab
  | bitbucket
deriving DecidableEq

/-- The state set up by `GitService.__init__` (git_services.py lines
8-11): no repository yet, token taken from `config.GITHUB_TOKEN`. -/
structure GitServiceState where
  kind : ProviderKind
  owner : Option Text
  repo_name : Option Text
  token : Text
deriving DecidableEq

/-- Python `str.lower` on the ASCII range. -/
def asciiLower (s : Text) : Text :=
  s.map (fun c => if 'A' ≤ c ∧ c ≤ 'Z' then Char.ofNat (c.toNat + 32) else c)

/-- `services.get(git_server.lower())`. -/
def providerOfName (s : Text) : Option ProviderKind :=
  if s = "github".data then some ProviderKind.github
  else if s = "gitlab".data then some ProviderKind.gitlab
  else if s = "bitbucket".data then some ProviderKind.bitbucket
  else none

/-- `GitServiceFactory.create_service` (lines 222-238): unknown name
fails first; then a missing token fails; else the variant is constructed
with `GitService.__init__`. -/
def create_service (github_token git_server : Text) : Except Text GitServiceState :=
  match providerOfName (asciiLower git_server) with
  | none => Except.error ("Unsupported git server: ".data ++ git_server)
  | some kind =>
    if github_token = [] then
      Except.error "Authentication token is missing in configuration".data
    else Except.ok ⟨kind, none, none, github_token⟩

/-- The headers of `GitHubService.get_pull_request_diff` (lines 34-44). -/
def github_diff_request_headers (token : Text) : List (Text × Text) :=
  [("Authorization".data, "token ".data ++ token),
   ("Accept".data, "application/vnd.github.v3.diff".data)]

/-- The headers of `GitLabService.get_pull_request_diff` (lines 94-99). -/
def gitlab_diff_request_headers (token : Text) : List (Text × Text) :=
  [("PRIVATE-TOKEN".data, token)]

/-- The credential string `f"{self.owner}:{self.token}"` that
`BitbucketService` base64-encodes into its `Basic` authorization header
(lines 163-169); base64 is an injective external encoding and is not
modelled. -/
def bitbucket_auth_source (owner token : Text) : Text :=
  owner ++ ":".data ++ token

/-! The rate limiter of app.py (lines 20-39): `rate_limit_storage` is a
dict from client address to the list of admitted request times; timestamps
and the window length (`timedelta(minutes=window_minutes)`) are modelled
as integers. -/

/-- The `rate_limit_storage` dict; absent keys read as the empty list
(`dict.get(ip, [])`). -/
def RLState : Type := Text → List Int

/-- Assignment `rate_limit_storage[client_ip] = l`. -/
def rlUpdate (st : RLState) (client_ip : Text) (l : List Int) : RLState :=
  fun x => if x = client_ip then l else st x

/-- One admission decision of the decorated handler: prune entries at or
before `now - window`, write the pruned list back, then either reject
(when the pruned list already holds `max_requests` entries) or record
`now` and admit. -/
def rate_limit_step (max_requests : Nat) (window : Int) (st : RLState)
    (client_ip : Text) (now : Int) : Bool × RLState :=
  let window_start := now - window
  let pruned := (st client_ip).filter (fun t => window_start < t)
  let st1 := rlUpdate st client_ip pruned
  if max_requests ≤ pruned.length then (false, st1)
  else (true, rlUpdate st1 client_ip (pruned ++ [now]))

/-- A burst: run the admission decision once per timestamp, in order,
collecting the decisions and the final storage. -/
def run_burst (max_requests : Nat) (window : Int) (st : RLState)
    (client_ip : Text) : List Int → List Bool × RLState
  | [] => ([], st)
  | t :: ts =>
    let step := rate_limit_step max_requests window st client_ip t
    let rest := run_burst max_requests window step.2 client_ip ts
    (step.1 :: rest.1, rest.2)

/-! validate_github_url (app.py lines 41-65).  The two regular
expressions anchor at both ends (after `url.strip()` there is no trailing
newline, so `$` is the end of the text); their character classes contain
no `/`, so the greedy groups are exactly the maximal runs the direct
parser below takes. -/

/-- Python `str.strip()` (ASCII whitespace). -/
def pyStrip (s : Text) : Text :=
  ((s.dropWhile pySpace).reverse.dropWhile pySpace).reverse

/-- The character class `[a-zA-Z0-9._-]` of the owner and repo groups. -/
def urlChar (c : Char) : Bool :=
  ('a' ≤ c && c ≤ 'z') || ('A' ≤ c && c ≤ 'Z') || ('0' ≤ c && c ≤ '9')
    || c = '.' || c = '_' || c = '-'

/-- Match one of the two anchored patterns
`https://(www.)?github.com/([a-zA-Z0-9._-]+)/([a-zA-Z0-9._-]+)/pull/(\d+)/?$`
against the (already stripped) text, returning the three groups. -/
def matchPRPattern (www : Bool) (u : Text) : Option (Text × Text × Text) :=
  let pre := if www then "https://www.github.com/".data
             else "https://github.com/".data
  if pre.isPrefixOf u then
    let r0 := u.drop pre.length
    let owner := r0.takeWhile urlChar
    match r0.dropWhile urlChar with
    | '/' :: r1 =>
      let repo := r1.takeWhile urlChar
      let r2 := r1.dropWhile urlChar
      if "/pull/".data.isPrefixOf r2 then
        let r3 := r2.drop "/pull/".data.length
        let ds := r3.takeWhile Char.isDigit
        let r4 := r3.dropWhile Char.isDigit
        if owner.isEmpty || repo.isEmpty || ds.isEmpty then none
        else if r4 = [] || r4 = ['/'] then some (owner, repo, ds)
        else none
      else none
    | _ => none
  else none

/-- `validate_github_url`: reject the empty text, strip, try the plain
pattern then the `www.` pattern, then apply the owner/repo length bounds
and the PR-number range; every failure raises `ValueError`, modelled as
`none`. -/
def validate_github_url (url : Text) : Option (Text × Text × Nat) :=
  if url = [] then none
  else
    let u := pyStrip url
    let m := match matchPRPattern false u with
             | some r => some r
             | none => matchPRPattern true u
    match m with
    | some (owner, repo, ds) =>
      if 39 < owner.length || 100 < repo.length then none
      else
        let pr_num := digitsToNat ds
        if pr_num = 0 || 999999 < pr_num then none
        else some (owner, repo, pr_num)
    | none => none

/-- The accepted URL grammar of the claim, with the provider bounds:
`https://(www.)?github.com/<owner>/<repo>/pull/<number>[/]` where owner
and repo are non-empty `[a-zA-Z0-9._-]` runs of bounded length, the
number is a non-empty digit run, and `0 < number ≤ 999999`. -/
def IsPRUrl (url owner repo : Text) (n : Nat) : Prop :=
  ∃ www ds slash : Text,
    (www = [] ∨ www = "www.".data) ∧
    owner ≠ [] ∧ (∀ c ∈ owner, urlChar c = true) ∧ owner.length ≤ 39 ∧
    repo ≠ [] ∧ (∀ c ∈ repo, urlChar c = true) ∧ repo.length ≤ 100 ∧
    ds ≠ [] ∧ (∀ c ∈ ds, c.isDigit = true) ∧ digitsToNat ds = n ∧
    0 < n ∧ n ≤ 999999 ∧
    (slash = [] ∨ slash = ['/']) ∧
    url = "https://".data ++ (www ++ ("github.com/".data
      ++ (owner ++ '/' :: (repo ++ ("/pull/".data ++ (ds ++ slash))))))

/-! Theorems. -/

theorem splitLines_ne_nil : ∀ d : Text, splitLines d ≠ []
  | [] => by simp [splitLines]
  | c :: rest => by
    simp only [splitLines]
    split
    · simp
    · split <;> simp

theorem not_newline_mem_splitLines :
    ∀ (d : Text) (l : Text), l ∈ splitLines d → '\n' ∉ l
  | [], l, hl => by
    simp [splitLines] at hl
    simp [hl]
  | c :: rest, l, hl => by
    by_cases hc : c = '\n'
    · simp only [splitLines, if_pos hc] at hl
      rcases List.mem_cons.mp hl with hl | hl
      · simp [hl]
      · exact not_newline_mem_splitLines rest l hl
    · simp only [splitLines, if_neg hc] at hl
      rcases hsp : splitLines rest with _ | ⟨l0, ls⟩
      · exact absurd hsp (splitLines_ne_nil rest)
      · rw [hsp] at hl
        rcases List.mem_cons.mp hl with hl | hl
        · subst hl
          intro hmem
          rcases List.mem_cons.mp hmem with hmem | hmem
          · exact hc hmem.symm
          · exact not_newline_mem_splitLines rest l0
              (by rw [hsp]; exact List.mem_cons_self _ _) hmem
        · exact not_newline_mem_splitLines rest l
            (by rw [hsp]; exact List.mem_cons_of_mem _ hl)

theorem splitLines_of_no_newline : ∀ l : Text, '\n' ∉ l → splitLines l = [l]
  | [], _ => by simp [splitLines]
  | c :: rest, h => by
    have hc : ¬ c = '\n' := fun hcc => h (by simp [hcc])
    have hrest : '\n' ∉ rest := fun hm => h (by simp [hm])
    simp only [splitLines, if_neg hc, splitLines_of_no_newline rest hrest]

theorem splitLines_append_newline :
    ∀ (l rest : Text), '\n' ∉ l →
      splitLines (l ++ '\n' :: rest) = l :: splitLines rest
  | [], rest, _ => by simp [splitLines]
  | c :: l, rest, h => by
    have hc : ¬ c = '\n' := fun hcc => h (by simp [hcc])
    have hl : '\n' ∉ l := fun hm => h (by simp [hm])
    have ih := splitLines_append_newline l rest hl
    have h2 : splitLines ((c :: l) ++ '\n' :: rest)
        = match splitLines (l ++ '\n' :: rest) with
          | l0 :: ls => (c :: l0) :: ls
          | [] => [[c]] := by
      simp only [List.cons_append, splitLines, List.append_eq, if_neg hc]
    rw [h2, ih]

theorem splitLines_joinLines :
    ∀ L : List Text, L ≠ [] → (∀ l ∈ L, '\n' ∉ l) →
      splitLines (joinLines L) = L
  | [], h, _ => absurd rfl h
  | [l], _, hn => by
    simp only [joinLines]
    exact splitLines_of_no_newline l (hn l (by simp))
  | l :: l₂ :: ls, _, hn => by
    have h1 : joinLines (l :: l₂ :: ls) = l ++ '\n' :: joinLines (l₂ :: ls) := rfl
    rw [h1, splitLines_append_newline l _ (hn l (by simp)),
      splitLines_joinLines (l₂ :: ls) (by simp) (fun x hx => hn x (by simp [hx]))]

theorem processLine_no_newline {l : Text} (h : '\n' ∉ l) :
    '\n' ∉ processLine l := by
  unfold processLine
  split
  · exact h
  · split
    · intro hm
      rcases List.mem_append.mp hm with hm | hm
      · simp at hm
      · exact h (List.mem_of_mem_drop hm)
    · split
      · intro hm
        rcases List.mem_append.mp hm with hm | hm
        · simp at hm
        · exact h (List.mem_of_mem_drop hm)
      · exact h

theorem splitLines_preprocess (diff : Text) :
    splitLines (preprocess_diff diff) = (splitLines diff).map processLine := by
  unfold preprocess_diff
  refine splitLines_joinLines _ ?_ ?_
  · simp [splitLines_ne_nil diff]
  · intro l hl
    rcases List.mem_map.mp hl with ⟨l0, hl0, rfl⟩
    exact processLine_no_newline (not_newline_mem_splitLines diff l0 hl0)

theorem splitLines_preprocess_iterate (diff : Text) :
    ∀ n : Nat, splitLines (preprocess_diff^[n] diff)
      = (splitLines diff).map (fun l => processLine^[n] l)
  | 0 => by simp
  | n + 1 => by
    rw [Function.iterate_succ_apply', splitLines_preprocess,
      splitLines_preprocess_iterate diff n, List.map_map]
    refine List.map_congr_left fun l _ => ?_
    simp [Function.comp, Function.iterate_succ_apply']

/-- C8: diff preprocessing maps each line independently; `+++`/`---`
metadata lines are emitted unchanged however many times preprocessing is
applied; every other `+` line becomes `ADDED: ` plus the rest of the line,
every other `-` line becomes `REMOVED: ` plus the rest, and all remaining
lines are unchanged. -/
theorem C8_preprocess_lines :
    (∀ diff : Text,
       splitLines (preprocess_diff diff) = (splitLines diff).map processLine) ∧
    (∀ (diff : Text) (n : Nat),
       splitLines (preprocess_diff^[n] diff)
         = (splitLines diff).map (fun l => processLine^[n] l)) ∧
    (∀ l : Text,
       ("+++".data.isPrefixOf l || "---".data.isPrefixOf l) = true →
       ∀ n : Nat, processLine^[n] l = l) ∧
    (∀ l : Text,
       ("+++".data.isPrefixOf l || "---".data.isPrefixOf l) = false →
       "+".data.isPrefixOf l = true →
       processLine l = "ADDED: ".data ++ l.drop 1) ∧
    (∀ l : Text,
       ("+++".data.isPrefixOf l || "---".data.isPrefixOf l) = false →
       "+".data.isPrefixOf l = false → "-".data.isPrefixOf l = true →
       processLine l = "REMOVED: ".data ++ l.drop 1) ∧
    (∀ l : Text,
       ("+++".data.isPrefixOf l || "---".data.isPrefixOf l) = false →
       "+".data.isPrefixOf l = false → "-".data.isPrefixOf l = false →
       processLine l = l) := by
  refine ⟨splitLines_preprocess, splitLines_preprocess_iterate, ?_, ?_, ?_, ?_⟩
  · intro l hmeta n
    induction n with
    | zero => rfl
    | succ n ih =>
      rw [Function.iterate_succ_apply', ih]
      unfold processLine
      rw [hmeta]
      simp
  · intro l hmeta hplus
    unfold processLine
    rw [hmeta, hplus]
    simp
  · intro l hmeta hplus hminus
    unfold processLine
    rw [hmeta, hplus, hminus]
    simp
  · intro l hmeta hplus hminus
    unfold processLine
    rw [hmeta, hplus, hminus]
    simp

/-- Witness for C8 at concrete lines and a concrete repetition count. -/
theorem C8_preprocess_lines_witness :
    processLine^[3] "+++ b/app.py".data = "+++ b/app.py".data ∧
    processLine "+x = 1".data = "ADDED: ".data ++ "+x = 1".data.drop 1 ∧
    processLine "-y = 2".data = "REMOVED: ".data ++ "-y = 2".data.drop 1 ∧
    processLine "ctx line".data = "ctx line".data := by
  exact ⟨C8_preprocess_lines.2.2.1 "+++ b/app.py".data (by decide) 3,
    C8_preprocess_lines.2.2.2.1 "+x = 1".data (by decide) (by decide),
    C8_preprocess_lines.2.2.2.2.1 "-y = 2".data (by decide) (by decide) (by decide),
    C8_preprocess_lines.2.2.2.2.2 "ctx line".data (by decide) (by decide) (by decide)⟩

/-- C4: the fallback summary is a deterministic pure function of the three
counts of the diff text (lines prefixed `+`, lines prefixed `-`, lines
matching `diff --git`), and on any diff with 3 added lines, 2 removed lines
and 2 file headers it reports `2 file(s)`, `3 additions` and `2 deletions`. -/
theorem C4_fallback_deterministic :
    (∀ d e : Text, countAdded d = countAdded e → countRemoved d = countRemoved e →
       countFilesChanged d = countFilesChanged e →
       generate_fallback_analysis d = generate_fallback_analysis e) ∧
    (∀ d : Text, countAdded d = 3 → countRemoved d = 2 → countFilesChanged d = 2 →
       containsSub "2 file(s)".data (generate_fallback_analysis d) = true ∧
       containsSub "3 additions".data (generate_fallback_analysis d) = true ∧
       containsSub "2 deletions".data (generate_fallback_analysis d) = true) := by
  constructor
  · intro d e ha hr hf
    unfold generate_fallback_analysis
    rw [ha, hr, hf]
  · intro d ha hr hf
    unfold generate_fallback_analysis
    rw [ha, hr, hf]
    exact ⟨by decide, by decide, by decide⟩

/-- Witness for C4: a two-file diff with three `+` lines and two `-` lines. -/
theorem C4_fallback_deterministic_witness :
    containsSub "2 file(s)".data
      (generate_fallback_analysis
        "diff --git a/x b/x\n+1\n+2\n-1\ndiff --git a/y b/y\n+3\n-2".data) = true ∧
    containsSub "3 additions".data
      (generate_fallback_analysis
        "diff --git a/x b/x\n+1\n+2\n-1\ndiff --git a/y b/y\n+3\n-2".data) = true ∧
    containsSub "2 deletions".data
      (generate_fallback_analysis
        "diff --git a/x b/x\n+1\n+2\n-1\ndiff --git a/y b/y\n+3\n-2".data) = true :=
  C4_fallback_deterministic.2
    "diff --git a/x b/x\n+1\n+2\n-1\ndiff --git a/y b/y\n+3\n-2".data
    (by decide) (by decide) (by decide)

theorem subScoreFuel_of_findScore_none (repl : Text) :
    ∀ (fuel : Nat) (t : Text), t.length ≤ fuel → findScore t = none →
      subScoreFuel repl fuel t = t := by
  intro fuel
  induction fuel with
  | zero =>
    intro t ht _
    cases t with
    | nil => rfl
    | cons c rest => simp at ht
  | succ fuel ih =>
    intro t ht hf
    cases t with
    | nil => rfl
    | cons c rest =>
      simp only [findScore] at hf
      simp only [subScoreFuel]
      cases hm : matchScoreAt (c :: rest) with
      | some v => rw [hm] at hf; rcases v with ⟨n, rem⟩; simp at hf
      | none =>
        rw [hm] at hf
        simp only at hf
        simp only
        rw [ih rest (by simpa using Nat.le_of_succ_le_succ ht) hf]

theorem subScoreFuel_contains (repl : Text) :
    ∀ (fuel : Nat) (t : Text) (n : Nat), t.length ≤ fuel → findScore t = some n →
      ∃ A B, subScoreFuel repl fuel t = A ++ repl ++ B := by
  intro fuel
  induction fuel with
  | zero =>
    intro t n ht hf
    cases t with
    | nil => simp [findScore] at hf
    | cons c rest => simp at ht
  | succ fuel ih =>
    intro t n ht hf
    cases t with
    | nil => simp [findScore] at hf
    | cons c rest =>
      simp only [findScore] at hf
      simp only [subScoreFuel]
      cases hm : matchScoreAt (c :: rest) with
      | some v =>
        rcases v with ⟨m, rem⟩
        exact ⟨[], subScoreFuel repl fuel rem, by simp⟩
      | none =>
        rw [hm] at hf
        simp only at hf
        simp only
        rcases ih rest n (by simpa using Nat.le_of_succ_le_succ ht) hf with ⟨A, B, hAB⟩
        exact ⟨c :: A, B, by simp [hAB]⟩

theorem scoreStep_of_findScore_none {t : Text} (h : findScore t = none) :
    scoreStep t = t := by
  unfold scoreStep
  rw [h]

theorem scoreStep_contains {t : Text} {n : Nat} (h : findScore t = some n) :
    ∃ A B, scoreStep t = A ++ scoreRepl n ++ B := by
  unfold scoreStep
  rw [h]
  exact subScoreFuel_contains (scoreRepl n) t.length t n (Nat.le_refl _) h

theorem digitChar_ne_newline (m : Nat) : Nat.digitChar m ≠ '\n' := by
  by_cases h : m ≤ 15
  · interval_cases m <;> decide
  · unfold Nat.digitChar
    repeat rw [if_neg (by omega)]
    decide

theorem toDigitsCore_ne_newline :
    ∀ (fuel n : Nat) (acc : List Char), (∀ c ∈ acc, c ≠ '\n') →
      ∀ c ∈ Nat.toDigitsCore 10 fuel n acc, c ≠ '\n'
  | 0, n, acc, hacc => hacc
  | fuel + 1, n, acc, hacc => by
    simp only [Nat.toDigitsCore]
    split
    · intro c hc
      rcases List.mem_cons.mp hc with rfl | hc
      · exact digitChar_ne_newline _
      · exact hacc c hc
    · refine toDigitsCore_ne_newline fuel _ _ ?_
      intro c hc
      rcases List.mem_cons.mp hc with rfl | hc
      · exact digitChar_ne_newline _
      · exact hacc c hc

theorem repr_no_newline (n : Nat) : '\n' ∉ (Nat.repr n).data := by
  have h : (Nat.repr n).data = Nat.toDigitsCore 10 (n + 1) n [] := rfl
  rw [h]
  intro hm
  exact toDigitsCore_ne_newline (n + 1) n [] (by simp) '\n' hm rfl

theorem scoreEmoji_no_newline (n : Nat) : '\n' ∉ scoreEmoji n := by
  unfold scoreEmoji
  split
  · decide
  · split
    · decide
    · decide

theorem scoreRepl_no_newline (n : Nat) : '\n' ∉ scoreRepl n := by
  intro hm
  simp only [scoreRepl, List.append_assoc, List.mem_append] at hm
  rcases hm with hm | hm | hm | hm | hm
  · exact absurd hm (by decide)
  · exact repr_no_newline n hm
  · exact absurd hm (by decide)
  · exact scoreEmoji_no_newline n hm
  · exact absurd hm (by decide)

theorem matchBlankAt_cons_ne {c : Char} {xs : Text} (h : ¬ c = '\n') :
    matchBlankAt (c :: xs) = none := by
  unfold matchBlankAt
  split
  · rename_i heq
    rw [List.cons.injEq] at heq
    exact absurd heq.1 h
  · rfl

theorem matchBlankAt_some {rest rem : Text}
    (h : matchBlankAt ('\n' :: rest) = some rem) :
    rem = ((rest.takeWhile pySpace).reverse.takeWhile
        (fun c => c ≠ '\n')).reverse ++ rest.dropWhile pySpace := by
  unfold matchBlankAt at h
  split at h
  · rename_i heq
    rw [List.cons.injEq] at heq
    obtain ⟨-, rfl⟩ := heq
    have h2 : (match ((rest.takeWhile pySpace).reverse.dropWhile
          (fun c => c ≠ '\n')) with
      | ([] : Text) => (none : Option Text)
      | _ :: _ => some (((rest.takeWhile pySpace).reverse.takeWhile
          (fun c => c ≠ '\n')).reverse ++ rest.dropWhile pySpace)) = some rem := h
    split at h2
    · exact absurd h2 (by simp)
    · rw [Option.some_inj] at h2
      exact h2.symm
  · rename_i hne
    exact absurd rfl (hne rest)

theorem takeWhile_append_head_false {p : Char → Bool} :
    ∀ (A : Text) (m0 : Char) (M : Text), p m0 = false →
      ((A ++ m0 :: M).takeWhile p) = A.takeWhile p
  | [], m0, M, hm => by simp [List.takeWhile_cons, hm]
  | a :: A, m0, M, hm => by
    rw [List.cons_append, List.takeWhile_cons, List.takeWhile_cons]
    by_cases hp : p a
    · rw [if_pos hp, if_pos hp, takeWhile_append_head_false A m0 M hm]
    · rw [if_neg hp, if_neg hp]

theorem dropWhile_append_head_false {p : Char → Bool} :
    ∀ (A : Text) (m0 : Char) (M : Text), p m0 = false →
      ((A ++ m0 :: M).dropWhile p) = A.dropWhile p ++ m0 :: M
  | [], m0, M, hm => by simp [List.dropWhile_cons, hm]
  | a :: A, m0, M, hm => by
    rw [List.cons_append, List.dropWhile_cons, List.dropWhile_cons]
    by_cases hp : p a
    · rw [if_pos hp, if_pos hp, dropWhile_append_head_false A m0 M hm]
    · rw [if_neg hp, if_neg hp, List.cons_append]

theorem collapseBlankFuel_no_newline :
    ∀ (N : Text) (fuel : Nat) (B : Text), '\n' ∉ N →
      collapseBlankFuel (fuel + N.length) (N ++ B) = N ++ collapseBlankFuel fuel B
  | [], fuel, B, _ => rfl
  | c :: N, fuel, B, h => by
    have hc : ¬ c = '\n' := fun hcc => h (by simp [hcc])
    have hN : '\n' ∉ N := fun hm => h (by simp [hm])
    have hfs : fuel + (c :: N).length = (fuel + N.length) + 1 := rfl
    rw [hfs, List.cons_append]
    have harm : collapseBlankFuel ((fuel + N.length) + 1) (c :: (N ++ B))
        = match matchBlankAt (c :: (N ++ B)) with
          | some rem => '\n' :: '\n' :: collapseBlankFuel (fuel + N.length) rem
          | none => c :: collapseBlankFuel (fuel + N.length) (N ++ B) := rfl
    rw [harm, matchBlankAt_cons_ne hc]
    simp only
    rw [collapseBlankFuel_no_newline N fuel B hN]
    exact (List.cons_append c N _).symm

theorem collapseBlankFuel_preserves (needle : Text) (hnl : '\n' ∉ needle)
    (n0 : Char) (nrest : Text) (hcons : needle = n0 :: nrest)
    (hn0 : pySpace n0 = false) :
    ∀ (fuel : Nat) (A B : Text), (A ++ (needle ++ B)).length ≤ fuel →
      ∃ A2 B2 : Text,
        collapseBlankFuel fuel (A ++ (needle ++ B)) = A2 ++ (needle ++ B2) := by
  intro fuel
  induction fuel with
  | zero =>
    intro A B hlen
    rw [hcons] at hlen
    simp [List.length_append] at hlen
  | succ f ih =>
    intro A B hlen
    cases A with
    | nil =>
      obtain ⟨k, hk⟩ : ∃ k, f + 1 = k + needle.length := by
        refine ⟨f + 1 - needle.length, ?_⟩
        have : needle.length ≤ f + 1 := by
          rw [List.nil_append] at hlen
          rw [List.length_append] at hlen
          omega
        omega
      rw [List.nil_append, hk, collapseBlankFuel_no_newline needle k B hnl]
      exact ⟨[], collapseBlankFuel k B, by simp⟩
    | cons a A =>
      have hlenA : (A ++ (needle ++ B)).length ≤ f := by
        rw [List.cons_append, List.length_cons] at hlen
        omega
      by_cases ha : a = '\n'
      · subst ha
        cases hm : matchBlankAt ('\n' :: (A ++ (needle ++ B))) with
        | none =>
          have harm : collapseBlankFuel (f + 1) ('\n' :: (A ++ (needle ++ B)))
              = match matchBlankAt ('\n' :: (A ++ (needle ++ B))) with
                | some rem => '\n' :: '\n' :: collapseBlankFuel f rem
                | none => '\n' :: collapseBlankFuel f (A ++ (needle ++ B)) := rfl
          rw [List.cons_append, harm, hm]
          simp only
          obtain ⟨A2, B2, hAB⟩ := ih A B hlenA
          rw [hAB]
          exact ⟨'\n' :: A2, B2, rfl⟩
        | some rem =>
          have harm : collapseBlankFuel (f + 1) ('\n' :: (A ++ (needle ++ B)))
              = match matchBlankAt ('\n' :: (A ++ (needle ++ B))) with
                | some rem => '\n' :: '\n' :: collapseBlankFuel f rem
                | none => '\n' :: collapseBlankFuel f (A ++ (needle ++ B)) := rfl
          rw [List.cons_append, harm, hm]
          simp only
          have hrem := matchBlankAt_some hm
          have htake : (A ++ (needle ++ B)).takeWhile pySpace
              = A.takeWhile pySpace := by
            rw [hcons, List.cons_append]
            exact takeWhile_append_head_false A n0 (nrest ++ B) hn0
          have hdrop : (A ++ (needle ++ B)).dropWhile pySpace
              = A.dropWhile pySpace ++ (needle ++ B) := by
            rw [hcons, List.cons_append,
              dropWhile_append_head_false A n0 (nrest ++ B) hn0]
          rw [htake, hdrop, ← List.append_assoc] at hrem
          have hT : (((A.takeWhile pySpace).reverse.takeWhile
              (fun c => c ≠ '\n')).reverse).length
              ≤ (A.takeWhile pySpace).length := by
            rw [List.length_reverse]
            calc ((A.takeWhile pySpace).reverse.takeWhile
                (fun c => c ≠ '\n')).length
                ≤ (A.takeWhile pySpace).reverse.length :=
                  (List.takeWhile_sublist _).length_le
            _ = (A.takeWhile pySpace).length := List.length_reverse _
          have htd : (A.takeWhile pySpace).length
              + (A.dropWhile pySpace).length = A.length := by
            rw [← List.length_append, List.takeWhile_append_dropWhile]
          have hlen2 : ((((A.takeWhile pySpace).reverse.takeWhile
              (fun c => c ≠ '\n')).reverse ++ A.dropWhile pySpace)
                ++ (needle ++ B)).length ≤ f := by
            rw [List.length_append, List.length_append]
            rw [List.length_append] at hlenA
            omega
          obtain ⟨A2, B2, hAB⟩ := ih _ B hlen2
          rw [hrem, hAB]
          exact ⟨'\n' :: '\n' :: A2, B2, rfl⟩
      · have harm : collapseBlankFuel (f + 1) (a :: (A ++ (needle ++ B)))
            = match matchBlankAt (a :: (A ++ (needle ++ B))) with
              | some rem => '\n' :: '\n' :: collapseBlankFuel f rem
              | none => a :: collapseBlankFuel f (A ++ (needle ++ B)) := rfl
        rw [List.cons_append, harm, matchBlankAt_cons_ne ha]
        simp only
        obtain ⟨A2, B2, hAB⟩ := ih A B hlenA
        rw [hAB]
        exact ⟨a :: A2, B2, rfl⟩

theorem collapseBlank_preserves (needle : Text) (hnl : '\n' ∉ needle)
    (n0 : Char) (nrest : Text) (hcons : needle = n0 :: nrest)
    (hn0 : pySpace n0 = false) (A B : Text) :
    ∃ A2 B2 : Text,
      collapseBlank (A ++ (needle ++ B)) = A2 ++ (needle ++ B2) :=
  collapseBlankFuel_preserves needle hnl n0 nrest hcons hn0
    (A ++ (needle ++ B)).length A B (Nat.le_refl _)

theorem format_contains_score (raw : Text) (n : Nat)
    (h : findScore (replaceAll '#' "## ".data "**".data
      (replaceAll '#' "# ".data "**".data raw)) = some n) :
    ∃ A B : Text, format_analysis_output raw = A ++ (scoreRepl n ++ B) := by
  obtain ⟨A, B, hAB⟩ := scoreStep_contains h
  have hform : format_analysis_output raw
      = collapseBlank (scoreStep (replaceAll '#' "## ".data "**".data
          (replaceAll '#' "# ".data "**".data raw))) := rfl
  rw [hform, hAB, List.append_assoc]
  exact collapseBlank_preserves (scoreRepl n) (scoreRepl_no_newline n)
    '*' _ rfl (by decide) A B

/-- C6 counterexample: the claim also asserts that when the score pattern
is absent the formatter leaves the text unchanged; on `## x` the pattern is
absent yet the heading normalization rewrites the text. -/
theorem C6_counterexample :
    findScore "## x".data = none ∧
    format_analysis_output "## x".data ≠ "## x".data := by
  exact ⟨by decide, by decide⟩

/-- C6 (amended): the formatter normalizes `## `/`### ` heading markers,
then — when the normalized text contains `Recommendation Score: N` —
rewrites every occurrence of the pattern to
`**Recommendation Score: N/10 <emoji>**` using the first occurrence's
score, with ✅ when N ≥ 8, ⚠️ when 5 ≤ N < 8 and ❌ when N < 5, and
finally collapses blank-line runs, so the formatted output contains the
rewritten score; when the pattern is absent the score-rewriting step
leaves the text unchanged.  In particular `Recommendation Score: 9`
yields `**Recommendation Score: 9/10 ✅**`, 6 yields ⚠️ and 2 yields ❌. -/
theorem C6_score_rewriting :
    (∀ raw : Text, format_analysis_output raw
       = collapseBlank (scoreStep
           (replaceAll '#' "## ".data "**".data
             (replaceAll '#' "# ".data "**".data raw)))) ∧
    (∀ t : Text, findScore t = none → scoreStep t = t) ∧
    (∀ (t : Text) (n : Nat), findScore t = some n →
       ∃ A B, scoreStep t = A ++ scoreRepl n ++ B) ∧
    (∀ (raw : Text) (n : Nat),
       findScore (replaceAll '#' "## ".data "**".data
         (replaceAll '#' "# ".data "**".data raw)) = some n →
       ∃ A B, format_analysis_output raw = A ++ (scoreRepl n ++ B)) ∧
    (∀ n : Nat, 8 ≤ n → scoreEmoji n = "✅".data) ∧
    (∀ n : Nat, 5 ≤ n → n < 8 → scoreEmoji n = "⚠️".data) ∧
    (∀ n : Nat, n < 5 → scoreEmoji n = "❌".data) ∧
    format_analysis_output "Recommendation Score: 9".data
      = "**Recommendation Score: 9/10 ✅**".data ∧
    format_analysis_output "Recommendation Score: 6".data
      = "**Recommendation Score: 6/10 ⚠️**".data ∧
    format_analysis_output "Recommendation Score: 2".data
      = "**Recommendation Score: 2/10 ❌**".data := by
  refine ⟨fun raw => rfl, fun t h => scoreStep_of_findScore_none h,
    fun t n h => scoreStep_contains h, format_contains_score,
    ?_, ?_, ?_, by decide, by decide, by decide⟩
  · intro n h
    simp [scoreEmoji, h]
  · intro n h5 h8
    simp [scoreEmoji, scoreEmoji, Nat.not_le.mpr h8, h5]
  · intro n h5
    simp [scoreEmoji, Nat.not_le.mpr (show n < 8 by omega), Nat.not_le.mpr h5]

/-- Witness for C6 at a concrete text containing the pattern and one
without it. -/
theorem C6_score_rewriting_witness :
    (∃ A B, scoreStep "x Recommendation Score: 7 y".data
       = A ++ scoreRepl 7 ++ B) ∧
    (∃ A B, format_analysis_output "## Recommendation Score: 9\n\n\nok".data
       = A ++ (scoreRepl 9 ++ B)) ∧
    scoreStep "no score here".data = "no score here".data ∧
    scoreEmoji 9 = "✅".data ∧ scoreEmoji 6 = "⚠️".data ∧
    scoreEmoji 2 = "❌".data := by
  exact ⟨C6_score_rewriting.2.2.1 "x Recommendation Score: 7 y".data 7 (by decide),
    C6_score_rewriting.2.2.2.1 "## Recommendation Score: 9\n\n\nok".data 9 (by decide),
    C6_score_rewriting.2.1 "no score here".data (by decide),
    C6_score_rewriting.2.2.2.2.1 9 (by decide),
    C6_score_rewriting.2.2.2.2.2.1 6 (by decide) (by decide),
    C6_score_rewriting.2.2.2.2.2.2.1 2 (by decide)⟩

/-- C1: `analyze_code_changes` never propagates an exception: on an empty
diff it returns the terminal error message (which is not the fallback
summary), and on any non-empty diff whose model call raises it returns the
deterministic fallback summary. -/
theorem C1_analyze_never_raises :
    (∀ (md5hex : Text → Text) (now : Text) (model : Text → Except Text Text)
       (st : EngineState) (ext : Text),
       (analyze_code_changes md5hex now model st [] ext).1
         = "Unable to analyze: diff text is empty.".data ∧
       (analyze_code_changes md5hex now model st [] ext).1
         ≠ generate_fallback_analysis []) ∧
    (∀ (md5hex : Text → Text) (now : Text) (model : Text → Except Text Text)
       (st : EngineState) (diff ext e : Text),
       diff ≠ [] →
       model (generate_structured_prompt diff ext) = Except.error e →
       (analyze_code_changes md5hex now model st diff ext).1
         = generate_fallback_analysis diff) := by
  constructor
  · intro md5hex now model st ext
    constructor
    · rfl
    · show "Unable to analyze: diff text is empty.".data
        ≠ generate_fallback_analysis []
      decide
  · intro md5hex now model st diff ext e hd hm
    simp only [analyze_code_changes, if_neg hd, hm]

/-- Witness for C1 at a concrete failing model and a concrete diff. -/
theorem C1_analyze_never_raises_witness :
    (analyze_code_changes (fun _ => "0123456789abcdef0123456789abcdef".data)
       "2026-01-01T00:00:00".data (fun _ => Except.error "quota".data)
       ⟨[]⟩ [] []).1 = "Unable to analyze: diff text is empty.".data ∧
    (analyze_code_changes (fun _ => "0123456789abcdef0123456789abcdef".data)
       "2026-01-01T00:00:00".data (fun _ => Except.error "quota".data)
       ⟨[]⟩ "+x".data []).1 = generate_fallback_analysis "+x".data := by
  exact ⟨(C1_analyze_never_raises.1 _ _ _ _ _).1,
    C1_analyze_never_raises.2 (fun _ => "0123456789abcdef0123456789abcdef".data)
      "2026-01-01T00:00:00".data (fun _ => Except.error "quota".data)
      ⟨[]⟩ "+x".data [] "quota".data (by decide) rfl⟩

/-- C5: every call with a non-empty diff (the only calls on which the
model runs, with either outcome) appends exactly one record to the run
history, holding the timestamp, the 8-character fingerprint taken from
the hex digest of the diff, the diff size and the success flag; the
existing records are not touched. -/
theorem C5_history_append :
    ∀ (md5hex : Text → Text) (now : Text) (model : Text → Except Text Text)
      (st : EngineState) (diff ext : Text),
      diff ≠ [] →
      ∃ rec : AnalysisRecord,
        (analyze_code_changes md5hex now model st diff ext).2.analysis_history
          = st.analysis_history ++ [rec] ∧
        rec.timestamp = now ∧
        rec.diff_hash = (md5hex diff).take 8 ∧
        ((md5hex diff).length = 32 → rec.diff_hash.length = 8) ∧
        rec.diff_size = diff.length ∧
        (rec.success = true
          ↔ ∃ r, model (generate_structured_prompt diff ext) = Except.ok r) := by
  intro md5hex now model st diff ext hd
  cases hm : model (generate_structured_prompt diff ext) with
  | ok response =>
    refine ⟨⟨now, (md5hex diff).take 8, diff.length, true, none⟩,
      ?_, rfl, rfl, ?_, rfl, ?_⟩
    · simp only [analyze_code_changes, if_neg hd, hm]
    · intro h32
      simp [List.length_take, h32]
    · simp [hm]
  | error e =>
    refine ⟨⟨now, (md5hex diff).take 8, diff.length, false, some e⟩,
      ?_, rfl, rfl, ?_, rfl, ?_⟩
    · simp only [analyze_code_changes, if_neg hd, hm]
    · intro h32
      simp [List.length_take, h32]
    · simp [hm]

/-- Witness for C5 at concrete inputs (a failing model call). -/
theorem C5_history_append_witness :
    ∃ rec : AnalysisRecord,
      (analyze_code_changes (fun _ => "0123456789abcdef0123456789abcdef".data)
         "2026-01-01T00:00:00".data (fun _ => Except.error "quota".data)
         ⟨[]⟩ "+x".data []).2.analysis_history
        = ([] : List AnalysisRecord) ++ [rec] ∧
      rec.timestamp = "2026-01-01T00:00:00".data ∧
      rec.diff_hash = "0123456789abcdef0123456789abcdef".data.take 8 ∧
      ("0123456789abcdef0123456789abcdef".data.length = 32 →
        rec.diff_hash.length = 8) ∧
      rec.diff_size = "+x".data.length ∧
      (rec.success = true
        ↔ ∃ r : Text,
            (Except.error "quota".data : Except Text Text) = Except.ok r) :=
  C5_history_append (fun _ => "0123456789abcdef0123456789abcdef".data)
    "2026-01-01T00:00:00".data (fun _ => Except.error "quota".data)
    ⟨[]⟩ "+x".data [] (by decide)

/-- C7: the batch flow yields one result per input PR, in input order,
without aborting on an individual failure; over `[1, 2, 3]` with PR 2's
fetch failing and PRs 1 and 3 succeeding end to end, the list has length
3 with PR 2 marked failed (with a reason) and PRs 1 and 3 marked success. -/
theorem C7_batch_per_pr_results :
    (∀ (fetch : Nat → Option Text) (engineAnalyze : Text → Text)
       (now repository git_server : Text) (prs : List Nat),
       (run_batch_analysis fetch engineAnalyze now repository git_server prs).map
           (fun r => r.pr_number) = prs) ∧
    (∀ (fetch : Nat → Option Text) (engineAnalyze : Text → Text)
       (now repository git_server : Text) (d1 d3 a1 a3 : Text),
       fetch 1 = some d1 → d1 ≠ [] →
       analyze_changes engineAnalyze d1 = some a1 → a1 ≠ [] →
       fetch 2 = none →
       fetch 3 = some d3 → d3 ≠ [] →
       analyze_changes engineAnalyze d3 = some a3 → a3 ≠ [] →
       run_batch_analysis fetch engineAnalyze now repository git_server [1, 2, 3]
         = [⟨1, "success".data, none, some ⟨now, git_server, repository, 1, a1⟩⟩,
            ⟨2, "failed".data, some "Could not fetch diff".data, none⟩,
            ⟨3, "success".data, none, some ⟨now, git_server, repository, 3, a3⟩⟩]) := by
  constructor
  · intro fetch engineAnalyze now repository git_server prs
    induction prs with
    | nil => rfl
    | cons pr rest ih =>
      simp only [run_batch_analysis, List.map_cons, ih, List.cons.injEq, and_true]
      unfold run_batch_step
      cases fetch pr with
      | none => rfl
      | some diff =>
        simp only
        split
        · rfl
        · cases analyze_changes engineAnalyze diff with
          | none => rfl
          | some analysis =>
            simp only
            split <;> rfl
  · intro fetch engineAnalyze now repository git_server d1 d3 a1 a3
      hf1 hd1 ha1 hna1 hf2 hf3 hd3 ha3 hna3
    simp only [run_batch_analysis, run_batch_step, hf1, hf2, hf3,
      if_neg hd1, if_neg hd3, ha1, ha3, if_neg hna1, if_neg hna3]

/-- Witness for C7 at a concrete fetch oracle failing only on PR 2. -/
theorem C7_batch_per_pr_results_witness :
    run_batch_analysis (fun pr => if pr = 2 then none else some "+x".data)
        (fun _ => "looks good".data) "t".data "o/r".data "github".data [1, 2, 3]
      = [⟨1, "success".data, none,
           some ⟨"t".data, "github".data, "o/r".data, 1, "looks good".data⟩⟩,
         ⟨2, "failed".data, some "Could not fetch diff".data, none⟩,
         ⟨3, "success".data, none,
           some ⟨"t".data, "github".data, "o/r".data, 3, "looks good".data⟩⟩] :=
  C7_batch_per_pr_results.2 (fun pr => if pr = 2 then none else some "+x".data)
    (fun _ => "looks good".data) "t".data "o/r".data "github".data
    "+x".data "+x".data "looks good".data "looks good".data
    (by decide) (by decide) (by decide) (by decide) (by decide)
    (by decide) (by decide) (by decide) (by decide)

/-- C9: the factory fails with the unsupported-provider error for every
name outside {github, gitlab, bitbucket} (case-insensitively), fails with
the missing-credentials error for a supported name without a configured
token, and returns the corresponding variant for a supported name with a
token. -/
theorem C9_factory_errors :
    (∀ token name : Text,
       asciiLower name ≠ "github".data → asciiLower name ≠ "gitlab".data →
       asciiLower name ≠ "bitbucket".data →
       create_service token name
         = Except.error ("Unsupported git server: ".data ++ name)) ∧
    (∀ name : Text,
       (asciiLower name = "github".data ∨ asciiLower name = "gitlab".data ∨
        asciiLower name = "bitbucket".data) →
       create_service [] name
         = Except.error "Authentication token is missing in configuration".data) ∧
    (∀ token name : Text, token ≠ [] →
       (asciiLower name = "github".data →
          create_service token name
            = Except.ok ⟨ProviderKind.github, none, none, token⟩) ∧
       (asciiLower name = "gitlab".data →
          create_service token name
            = Except.ok ⟨ProviderKind.gitlab, none, none, token⟩) ∧
       (asciiLower name = "bitbucket".data →
          create_service token name
            = Except.ok ⟨ProviderKind.bitbucket, none, none, token⟩)) := by
  refine ⟨?_, ?_, ?_⟩
  · intro token name h1 h2 h3
    unfold create_service providerOfName
    rw [if_neg h1, if_neg h2, if_neg h3]
  · intro name h
    unfold create_service providerOfName
    rcases h with h | h | h
    · rw [if_pos h]; simp
    · rw [if_neg (by rw [h]; decide), if_pos h]; simp
    · rw [if_neg (by rw [h]; decide), if_neg (by rw [h]; decide), if_pos h]
      simp
  · intro token name htok
    refine ⟨?_, ?_, ?_⟩
    · intro h
      unfold create_service providerOfName
      rw [if_pos h]
      simp [htok]
    · intro h
      unfold create_service providerOfName
      rw [if_neg (by rw [h]; decide), if_pos h]
      simp [htok]
    · intro h
      unfold create_service providerOfName
      rw [if_neg (by rw [h]; decide), if_neg (by rw [h]; decide), if_pos h]
      simp [htok]

/-- Witness for C9: an unsupported name, a supported name without a
token, and a mixed-case supported name with a token. -/
theorem C9_factory_errors_witness :
    create_service "tok".data "svn".data
      = Except.error ("Unsupported git server: ".data ++ "svn".data) ∧
    create_service [] "github".data
      = Except.error "Authentication token is missing in configuration".data ∧
    create_service "tok".data "GitLab".data
      = Except.ok ⟨ProviderKind.gitlab, none, none, "tok".data⟩ := by
  exact ⟨C9_factory_errors.1 "tok".data "svn".data
      (by decide) (by decide) (by decide),
    C9_factory_errors.2.1 "github".data (Or.inl (by decide)),
    (C9_factory_errors.2.2 "tok".data "GitLab".data (by decide)).2.1 (by decide)⟩

/-- C10: every variant authenticates with the single configured GitHub
token: for each supported provider name, construction succeeds exactly
when `config.GITHUB_TOKEN` is non-empty, the constructed service stores
that token, and the GitHub, GitLab and Bitbucket request credentials are
all built from it — there is no per-provider token. -/
theorem C10_single_github_token :
    ∀ (github_token name : Text),
      (asciiLower name = "github".data ∨ asciiLower name = "gitlab".data ∨
       asciiLower name = "bitbucket".data) →
      ((∃ s, create_service github_token name = Except.ok s)
         ↔ github_token ≠ []) ∧
      (∀ s, create_service github_token name = Except.ok s →
         s.token = github_token ∧
         github_diff_request_headers s.token
           = [("Authorization".data, "token ".data ++ github_token),
              ("Accept".data, "application/vnd.github.v3.diff".data)] ∧
         gitlab_diff_request_headers s.token
           = [("PRIVATE-TOKEN".data, github_token)] ∧
         (∀ owner, bitbucket_auth_source owner s.token
           = owner ++ ":".data ++ github_token)) := by
  intro github_token name h
  have hsome : ∃ k, providerOfName (asciiLower name) = some k := by
    unfold providerOfName
    rcases h with h | h | h
    · exact ⟨ProviderKind.github, by rw [if_pos h]⟩
    · exact ⟨ProviderKind.gitlab, by rw [if_neg (by rw [h]; decide), if_pos h]⟩
    · exact ⟨ProviderKind.bitbucket,
        by rw [if_neg (by rw [h]; decide), if_neg (by rw [h]; decide), if_pos h]⟩
  rcases hsome with ⟨k, hk⟩
  have hcreate : create_service github_token name
      = if github_token = [] then
          Except.error "Authentication token is missing in configuration".data
        else Except.ok ⟨k, none, none, github_token⟩ := by
    unfold create_service
    rw [hk]
  constructor
  · constructor
    · rintro ⟨s, hs⟩ htok
      rw [hcreate, if_pos htok] at hs
      exact absurd hs (by simp)
    · intro htok
      exact ⟨⟨k, none, none, github_token⟩, by rw [hcreate, if_neg htok]⟩
  · intro s hs
    by_cases htok : github_token = []
    · rw [hcreate, if_pos htok] at hs
      exact absurd hs (by simp)
    · rw [hcreate, if_neg htok] at hs
      have hstok : s.token = github_token := by
        have := Except.ok.inj hs
        rw [← this]
      exact ⟨hstok, by rw [hstok]; rfl, by rw [hstok]; rfl,
        fun owner => by rw [hstok]; rfl⟩

/-- Witness for C10 at the GitLab variant with a concrete token. -/
theorem C10_single_github_token_witness :
    ((∃ s, create_service "tok".data "gitlab".data = Except.ok s)
       ↔ "tok".data ≠ ([] : Text)) ∧
    (∀ s, create_service "tok".data "gitlab".data = Except.ok s →
       s.token = "tok".data ∧
       github_diff_request_headers s.token
         = [("Authorization".data, "token ".data ++ "tok".data),
            ("Accept".data, "application/vnd.github.v3.diff".data)] ∧
       gitlab_diff_request_headers s.token
         = [("PRIVATE-TOKEN".data, "tok".data)] ∧
       (∀ owner, bitbucket_auth_source owner s.token
         = owner ++ ":".data ++ "tok".data)) :=
  C10_single_github_token "tok".data "gitlab".data (Or.inr (Or.inl (by decide)))

theorem rlUpdate_same (st : RLState) (ip : Text) (l : List Int) :
    rlUpdate st ip l ip = l := by
  unfold rlUpdate
  rw [if_pos rfl]

theorem run_burst_cons (max_requests : Nat) (window : Int) (st : RLState)
    (client_ip : Text) (t : Int) (ts : List Int) :
    run_burst max_requests window st client_ip (t :: ts)
      = ((rate_limit_step max_requests window st client_ip t).1
          :: (run_burst max_requests window
               (rate_limit_step max_requests window st client_ip t).2 client_ip ts).1,
         (run_burst max_requests window
           (rate_limit_step max_requests window st client_ip t).2 client_ip ts).2) :=
  rfl

theorem run_burst_in_window (max_requests : Nat) (window : Int)
    (client_ip : Text) :
    ∀ (ts : List Int) (st : RLState),
      (st client_ip).length ≤ max_requests →
      List.Pairwise (fun a b => b - a < window) ts →
      (∀ x ∈ st client_ip, ∀ t ∈ ts, t - x < window) →
      (run_burst max_requests window st client_ip ts).1
          = (List.range ts.length).map
              (fun i => decide ((st client_ip).length + i < max_requests)) ∧
      (run_burst max_requests window st client_ip ts).2 client_ip
          = st client_ip ++ ts.take (max_requests - (st client_ip).length) := by
  intro ts
  induction ts with
  | nil =>
    intro st _ _ _
    simp [run_burst]
  | cons t ts ih =>
    intro st hlen hpair hcross
    have hkeep : (st client_ip).filter (fun x => t - window < x) = st client_ip :=
      List.filter_eq_self.mpr (fun x hx => by
        have := hcross x hx t (by simp)
        simp only [decide_eq_true_eq]
        omega)
    have hpair1 : ∀ u ∈ ts, u - t < window :=
      fun u hu => List.rel_of_pairwise_cons hpair hu
    have hpair2 : List.Pairwise (fun a b => b - a < window) ts :=
      List.Pairwise.of_cons hpair
    by_cases hfull : max_requests ≤ (st client_ip).length
    · have heq : (st client_ip).length = max_requests := Nat.le_antisymm hlen hfull
      have hstep1 : (rate_limit_step max_requests window st client_ip t).1 = false := by
        simp only [rate_limit_step, hkeep, if_pos hfull]
      have hstep2 : (rate_limit_step max_requests window st client_ip t).2
          = rlUpdate st client_ip (st client_ip) := by
        simp only [rate_limit_step, hkeep, if_pos hfull]
      have hst1 : rlUpdate st client_ip (st client_ip) client_ip = st client_ip :=
        rlUpdate_same _ _ _
      have hforward : ∀ x ∈ rlUpdate st client_ip (st client_ip) client_ip,
          ∀ u ∈ ts, u - x < window := by
        rw [hst1]
        exact fun x hx u hu => hcross x hx u (List.mem_cons_of_mem _ hu)
      rcases ih (rlUpdate st client_ip (st client_ip))
          (by rw [hst1]; exact hlen) hpair2 hforward
        with ⟨hres, hfin⟩
      rw [hst1] at hres hfin
      constructor
      · rw [run_burst_cons]
        dsimp only
        rw [hstep1, hstep2, hres, List.length_cons, List.range_succ_eq_map,
          List.map_cons, List.map_map]
        simp only [List.cons.injEq]
        constructor
        · exact (decide_eq_false (by omega)).symm
        · refine List.map_congr_left fun i _ => ?_
          simp only [Function.comp_apply]
          rw [decide_eq_decide]
          omega
      · rw [run_burst_cons]
        dsimp only
        rw [hstep2, hfin, heq]
        simp
    · have hlt : (st client_ip).length < max_requests := Nat.lt_of_not_le hfull
      have hstep1 : (rate_limit_step max_requests window st client_ip t).1 = true := by
        simp only [rate_limit_step, hkeep, if_neg hfull]
      have hstep2 : (rate_limit_step max_requests window st client_ip t).2
          = rlUpdate (rlUpdate st client_ip (st client_ip)) client_ip
              (st client_ip ++ [t]) := by
        simp only [rate_limit_step, hkeep, if_neg hfull]
      have hst1 : rlUpdate (rlUpdate st client_ip (st client_ip)) client_ip
          (st client_ip ++ [t]) client_ip = st client_ip ++ [t] :=
        rlUpdate_same _ _ _
      have hcross1 : ∀ x ∈ st client_ip ++ [t], ∀ u ∈ ts, u - x < window := by
        intro x hx u hu
        rcases List.mem_append.mp hx with hx | hx
        · exact hcross x hx u (List.mem_cons_of_mem _ hu)
        · have hxt : x = t := by simpa using hx
          rw [hxt]
          exact hpair1 u hu
      have hlen2 : (rlUpdate (rlUpdate st client_ip (st client_ip)) client_ip
          (st client_ip ++ [t]) client_ip).length ≤ max_requests := by
        rw [hst1]
        simp only [List.length_append, List.length_cons, List.length_nil]
        omega
      have hforward : ∀ x ∈ rlUpdate (rlUpdate st client_ip (st client_ip))
          client_ip (st client_ip ++ [t]) client_ip, ∀ u ∈ ts, u - x < window := by
        rw [hst1]
        exact hcross1
      rcases ih (rlUpdate (rlUpdate st client_ip (st client_ip)) client_ip
            (st client_ip ++ [t])) hlen2 hpair2 hforward
        with ⟨hres, hfin⟩
      rw [hst1] at hres hfin
      constructor
      · rw [run_burst_cons]
        dsimp only
        rw [hstep1, hstep2, hres, List.length_cons, List.range_succ_eq_map,
          List.map_cons, List.map_map]
        simp only [List.cons.injEq]
        constructor
        · exact (decide_eq_true (by omega)).symm
        · refine List.map_congr_left fun i _ => ?_
          simp only [Function.comp_apply, List.length_append, List.length_cons,
            List.length_nil]
          rw [decide_eq_decide]
          omega
      · rw [run_burst_cons]
        dsimp only
        rw [hstep2, hfin, List.append_assoc]
        congr 1
        have hlen1 : (st client_ip ++ [t]).length = (st client_ip).length + 1 := by
          simp
        rw [hlen1]
        have harith : max_requests - (st client_ip).length
            = (max_requests - ((st client_ip).length + 1)) + 1 := by omega
        rw [harith, List.take_succ_cons]
        rfl

/-- C2: admission control per client: a rejection leaves the client's
entry pruned but otherwise unchanged (no timestamp recorded); a burst of
`N + 1` requests within the window from a client with an empty window
admits exactly the first `N` and rejects the last, recording only the
first `N` timestamps; once the window has fully elapsed past all recorded
timestamps a new request is admitted again. -/
theorem C2_rate_limiter :
    (∀ (max_requests : Nat) (window : Int) (st : RLState)
       (client_ip : Text) (now : Int),
       (rate_limit_step max_requests window st client_ip now).1 = false →
       (rate_limit_step max_requests window st client_ip now).2 client_ip
         = (st client_ip).filter (fun t => now - window < t)) ∧
    (∀ (max_requests : Nat) (window : Int) (st : RLState)
       (client_ip : Text) (ts : List Int),
       0 < max_requests → st client_ip = [] →
       ts.length = max_requests + 1 →
       List.Pairwise (fun a b => b - a < window) ts →
       (run_burst max_requests window st client_ip ts).1
           = (List.range (max_requests + 1)).map
               (fun i => decide (i < max_requests)) ∧
       (run_burst max_requests window st client_ip ts).2 client_ip
           = ts.take max_requests) ∧
    (∀ (max_requests : Nat) (window : Int) (st : RLState)
       (client_ip : Text) (now : Int),
       0 < max_requests →
       (∀ x ∈ st client_ip, x ≤ now - window) →
       (rate_limit_step max_requests window st client_ip now).1 = true) := by
  refine ⟨?_, ?_, ?_⟩
  · intro max_requests window st client_ip now hrej
    by_cases hfull : max_requests
        ≤ ((st client_ip).filter (fun t => now - window < t)).length
    · have h2 : (rate_limit_step max_requests window st client_ip now).2
          = rlUpdate st client_ip
              ((st client_ip).filter (fun t => now - window < t)) := by
        simp only [rate_limit_step, if_pos hfull]
      rw [h2]
      exact rlUpdate_same _ _ _
    · have h1 : (rate_limit_step max_requests window st client_ip now).1 = true := by
        simp only [rate_limit_step, if_neg hfull]
      rw [h1] at hrej
      exact absurd hrej (by simp)
  · intro max_requests window st client_ip ts hpos hempty hlen hpair
    rcases run_burst_in_window max_requests window client_ip ts st
        (by rw [hempty]; exact Nat.zero_le _) hpair
        (by rw [hempty]; intro x hx; exact absurd hx (List.not_mem_nil x))
      with ⟨hres, hfin⟩
    constructor
    · rw [hres, hempty, hlen]
      simp
    · rw [hfin, hempty]
      simp
  · intro max_requests window st client_ip now hpos hstale
    have hnil : (st client_ip).filter (fun t => now - window < t) = [] := by
      rw [List.filter_eq_nil_iff]
      intro x hx
      have := hstale x hx
      simp only [decide_eq_true_eq]
      omega
    simp only [rate_limit_step, hnil]
    simp [Nat.pos_iff_ne_zero.mp hpos]

/-- Witness for C2: limit 2, window 10, three requests at times 0, 1, 2
from a fresh client, then one request at time 20. -/
theorem C2_rate_limiter_witness :
    ((rate_limit_step 0 10 (fun _ => []) "c".data 5).1 = false →
      (rate_limit_step 0 10 (fun _ => []) "c".data 5).2 "c".data
        = (([] : List Int)).filter (fun t => 5 - 10 < t)) ∧
    ((run_burst 2 10 (fun _ => []) "c".data [0, 1, 2]).1
        = (List.range 3).map (fun i => decide (i < 2)) ∧
     (run_burst 2 10 (fun _ => []) "c".data [0, 1, 2]).2 "c".data
        = ([0, 1, 2] : List Int).take 2) ∧
    (rate_limit_step 2 10
        ((run_burst 2 10 (fun _ => []) "c".data [0, 1, 2]).2) "c".data 20).1
      = true := by
  refine ⟨C2_rate_limiter.1 0 10 (fun _ => []) "c".data 5,
    C2_rate_limiter.2.1 2 10 (fun _ => []) "c".data [0, 1, 2]
      (by decide) rfl (by decide) (by decide),
    C2_rate_limiter.2.2 2 10 _ "c".data 20 (by decide) ?_⟩
  intro x hx
  have hfin := (C2_rate_limiter.2.1 2 10 (fun _ => []) "c".data [0, 1, 2]
    (by decide) rfl (by decide) (by decide)).2
  rw [hfin] at hx
  have hx2 : x = 0 ∨ x = 1 := by simpa using hx
  rcases hx2 with h | h <;> rw [h] <;> decide

theorem isPrefixOf_append_self : ∀ p t : Text, p.isPrefixOf (p ++ t) = true
  | [], _ => by simp [List.isPrefixOf]
  | c :: p, t => by
    simp only [List.cons_append, List.isPrefixOf, beq_self_eq_true,
      Bool.true_and]
    exact isPrefixOf_append_self p t

theorem eq_append_of_isPrefixOf : ∀ {p l : Text}, p.isPrefixOf l = true →
    l = p ++ l.drop p.length
  | [], l, _ => by simp
  | c :: p, [], h => by simp [List.isPrefixOf] at h
  | c :: p, d :: l, h => by
    simp only [List.isPrefixOf, Bool.and_eq_true, beq_iff_eq] at h
    obtain ⟨rfl, hp⟩ := h
    have ih := eq_append_of_isPrefixOf hp
    calc c :: l = c :: (p ++ l.drop p.length) := by rw [← ih]
    _ = (c :: p) ++ (c :: l).drop (c :: p).length := by
        simp [List.length_cons]

theorem takeWhile_all {p : Char → Bool} :
    ∀ {l : Text}, (∀ c ∈ l, p c = true) → l.takeWhile p = l
  | [], _ => rfl
  | c :: l, h => by
    rw [List.takeWhile_cons, if_pos (by simp [h c (by simp)])]
    rw [takeWhile_all (fun x hx => h x (by simp [hx]))]

theorem dropWhile_all {p : Char → Bool} :
    ∀ {l : Text}, (∀ c ∈ l, p c = true) → l.dropWhile p = []
  | [], _ => rfl
  | c :: l, h => by
    rw [List.dropWhile_cons, if_pos (by simp [h c (by simp)])]
    exact dropWhile_all (fun x hx => h x (by simp [hx]))

theorem takeWhile_append_stop {p : Char → Bool} :
    ∀ (l : Text) (d : Char) (t : Text),
      (∀ c ∈ l, p c = true) → p d = false →
      (l ++ d :: t).takeWhile p = l
  | [], d, t, _, hd => by
    simp [List.takeWhile_cons, hd]
  | c :: l, d, t, h, hd => by
    rw [List.cons_append, List.takeWhile_cons, if_pos (by simp [h c (by simp)])]
    rw [takeWhile_append_stop l d t (fun x hx => h x (by simp [hx])) hd]

theorem dropWhile_append_stop {p : Char → Bool} :
    ∀ (l : Text) (d : Char) (t : Text),
      (∀ c ∈ l, p c = true) → p d = false →
      (l ++ d :: t).dropWhile p = d :: t
  | [], d, t, _, hd => by
    simp [List.dropWhile_cons, hd]
  | c :: l, d, t, h, hd => by
    rw [List.cons_append, List.dropWhile_cons, if_pos (by simp [h c (by simp)])]
    exact dropWhile_append_stop l d t (fun x hx => h x (by simp [hx])) hd

theorem isEmpty_false_of_ne_nil {l : Text} (h : l ≠ []) : l.isEmpty = false := by
  cases l with
  | nil => exact absurd rfl h
  | cons c t => rfl

theorem matchPRPattern_of_shape (www : Bool) (owner repo ds slash : Text)
    (ho : owner ≠ []) (hoc : ∀ c ∈ owner, urlChar c = true)
    (hr : repo ≠ []) (hrc : ∀ c ∈ repo, urlChar c = true)
    (hd : ds ≠ []) (hdc : ∀ c ∈ ds, c.isDigit = true)
    (hs : slash = [] ∨ slash = ['/']) :
    matchPRPattern www
        ((if www then "https://www.github.com/".data
          else "https://github.com/".data)
          ++ (owner ++ '/' :: (repo ++ ("/pull/".data ++ (ds ++ slash)))))
      = some (owner, repo, ds) := by
  have hds_take : (ds ++ slash).takeWhile Char.isDigit = ds := by
    rcases hs with rfl | rfl
    · rw [List.append_nil]
      exact takeWhile_all hdc
    · exact takeWhile_append_stop ds '/' [] hdc (by decide)
  have hds_drop : (ds ++ slash).dropWhile Char.isDigit = slash := by
    rcases hs with rfl | rfl
    · rw [List.append_nil]
      exact dropWhile_all hdc
    · exact dropWhile_append_stop ds '/' [] hdc (by decide)
  have hslash_ok : (slash = ([] : Text) || slash = ['/']) = true := by
    rcases hs with rfl | rfl <;> simp
  have hrepo2 : repo ++ ("/pull/".data ++ (ds ++ slash))
      = repo ++ '/' :: ("pull/".data ++ (ds ++ slash)) := rfl
  simp only [matchPRPattern, isPrefixOf_append_self, if_true,
    List.drop_left,
    takeWhile_append_stop owner '/' (repo ++ ("/pull/".data ++ (ds ++ slash)))
      hoc (by decide),
    dropWhile_append_stop owner '/' (repo ++ ("/pull/".data ++ (ds ++ slash)))
      hoc (by decide)]
  rw [hrepo2,
    takeWhile_append_stop repo '/' ("pull/".data ++ (ds ++ slash)) hrc (by decide),
    dropWhile_append_stop repo '/' ("pull/".data ++ (ds ++ slash)) hrc (by decide)]
  have hpull : ('/' :: ("pull/".data ++ (ds ++ slash)))
      = "/pull/".data ++ (ds ++ slash) := rfl
  rw [hpull, isPrefixOf_append_self]
  simp only [if_true, List.drop_left, hds_take, hds_drop,
    isEmpty_false_of_ne_nil ho, isEmpty_false_of_ne_nil hr,
    isEmpty_false_of_ne_nil hd, Bool.or_self, Bool.false_or, Bool.or_false,
    if_false, hslash_ok, if_true]
  simp

theorem shape_of_matchPRPattern_false {u o r ds : Text}
    (h : matchPRPattern false u = some (o, r, ds)) :
    o ≠ [] ∧ (∀ c ∈ o, urlChar c = true) ∧
    r ≠ [] ∧ (∀ c ∈ r, urlChar c = true) ∧
    ds ≠ [] ∧ (∀ c ∈ ds, c.isDigit = true) ∧
    ∃ slash : Text, (slash = [] ∨ slash = ['/']) ∧
      u = "https://github.com/".data
        ++ (o ++ '/' :: (r ++ ("/pull/".data ++ (ds ++ slash)))) := by
  simp only [matchPRPattern] at h
  rw [if_neg (by decide : ¬ ((false : Bool) = true))] at h
  split at h
  · rename_i hpre
    split at h
    · rename_i x r1 heq
      split at h
      · rename_i hpull
        split at h
        · exact absurd h (by simp)
        · rename_i hempt
          split at h
          · rename_i hslash
            rw [Option.some_inj, Prod.mk.injEq, Prod.mk.injEq] at h
            obtain ⟨hA, hB, hC⟩ := h
            subst hA
            subst hB
            subst hC
            simp only [Bool.or_eq_true, List.isEmpty_eq_true, not_or] at hempt
            obtain ⟨⟨hno, hnr⟩, hnd⟩ := hempt
            simp only [Bool.or_eq_true, decide_eq_true_eq] at hslash
            refine ⟨hno, fun c hc => List.mem_takeWhile_imp hc,
              hnr, fun c hc => List.mem_takeWhile_imp hc,
              hnd, fun c hc => List.mem_takeWhile_imp hc, ?_⟩
            refine ⟨_, hslash, ?_⟩
            have hu := eq_append_of_isPrefixOf hpre
            refine hu.trans ?_
            have e1 : u.drop ("https://github.com/".data).length
                = (u.drop ("https://github.com/".data).length).takeWhile urlChar
                  ++ ('/' :: r1) := by
              rw [← heq]
              exact (List.takeWhile_append_dropWhile _ _).symm
            have e2 : r1 = r1.takeWhile urlChar ++ r1.dropWhile urlChar :=
              (List.takeWhile_append_dropWhile _ _).symm
            have e3 := eq_append_of_isPrefixOf hpull
            have e4 : (r1.dropWhile urlChar).drop ("/pull/".data).length
                = ((r1.dropWhile urlChar).drop ("/pull/".data).length).takeWhile
                    Char.isDigit
                  ++ ((r1.dropWhile urlChar).drop ("/pull/".data).length).dropWhile
                    Char.isDigit :=
              (List.takeWhile_append_dropWhile _ _).symm
            conv_lhs => rw [e1, e2, e3, e4]
          · exact absurd h (by simp)
      · exact absurd h (by simp)
    · exact absurd h (by simp)
  · exact absurd h (by simp)

theorem shape_of_matchPRPattern_true {u o r ds : Text}
    (h : matchPRPattern true u = some (o, r, ds)) :
    o ≠ [] ∧ (∀ c ∈ o, urlChar c = true) ∧
    r ≠ [] ∧ (∀ c ∈ r, urlChar c = true) ∧
    ds ≠ [] ∧ (∀ c ∈ ds, c.isDigit = true) ∧
    ∃ slash : Text, (slash = [] ∨ slash = ['/']) ∧
      u = "https://www.github.com/".data
        ++ (o ++ '/' :: (r ++ ("/pull/".data ++ (ds ++ slash)))) := by
  simp only [matchPRPattern] at h
  simp only [if_true] at h
  split at h
  · rename_i hpre
    split at h
    · rename_i x r1 heq
      split at h
      · rename_i hpull
        split at h
        · exact absurd h (by simp)
        · rename_i hempt
          split at h
          · rename_i hslash
            rw [Option.some_inj, Prod.mk.injEq, Prod.mk.injEq] at h
            obtain ⟨hA, hB, hC⟩ := h
            subst hA
            subst hB
            subst hC
            simp only [Bool.or_eq_true, List.isEmpty_eq_true, not_or] at hempt
            obtain ⟨⟨hno, hnr⟩, hnd⟩ := hempt
            simp only [Bool.or_eq_true, decide_eq_true_eq] at hslash
            refine ⟨hno, fun c hc => List.mem_takeWhile_imp hc,
              hnr, fun c hc => List.mem_takeWhile_imp hc,
              hnd, fun c hc => List.mem_takeWhile_imp hc, ?_⟩
            refine ⟨_, hslash, ?_⟩
            have hu := eq_append_of_isPrefixOf hpre
            refine hu.trans ?_
            have e1 : u.drop ("https://www.github.com/".data).length
                = (u.drop ("https://www.github.com/".data).length).takeWhile urlChar
                  ++ ('/' :: r1) := by
              rw [← heq]
              exact (List.takeWhile_append_dropWhile _ _).symm
            have e2 : r1 = r1.takeWhile urlChar ++ r1.dropWhile urlChar :=
              (List.takeWhile_append_dropWhile _ _).symm
            have e3 := eq_append_of_isPrefixOf hpull
            have e4 : (r1.dropWhile urlChar).drop ("/pull/".data).length
                = ((r1.dropWhile urlChar).drop ("/pull/".data).length).takeWhile
                    Char.isDigit
                  ++ ((r1.dropWhile urlChar).drop ("/pull/".data).length).dropWhile
                    Char.isDigit :=
              (List.takeWhile_append_dropWhile _ _).symm
            conv_lhs => rw [e1, e2, e3, e4]
          · exact absurd h (by simp)
      · exact absurd h (by simp)
    · exact absurd h (by simp)
  · exact absurd h (by simp)

theorem validate_of_IsPRUrl (url o r : Text) (n : Nat)
    (h : IsPRUrl (pyStrip url) o r n) :
    validate_github_url url = some (o, r, n) := by
  obtain ⟨www, ds, slash, hwww, ho, hoc, ho39, hr2, hrc, hr100, hd, hdc,
    hn, hpos, hle, hs, hurl⟩ := h
  have hne : url ≠ [] := by
    intro hnil
    rw [hnil] at hurl
    have h0 : pyStrip [] = ([] : Text) := rfl
    rw [h0] at hurl
    have hcons : "https://".data
        ++ (www ++ ("github.com/".data
          ++ (o ++ '/' :: (r ++ ("/pull/".data ++ (ds ++ slash))))))
        = 'h' :: ("ttps://".data
          ++ (www ++ ("github.com/".data
            ++ (o ++ '/' :: (r ++ ("/pull/".data ++ (ds ++ slash))))))) := rfl
    rw [hcons] at hurl
    exact absurd hurl (by simp)
  simp only [validate_github_url]
  rw [if_neg hne]
  have hb1 : (decide (39 < o.length) || decide (100 < r.length)) = false := by
    rw [decide_eq_false (by omega), decide_eq_false (by omega)]
    rfl
  have hb2 : (decide (digitsToNat ds = 0) || decide (999999 < digitsToNat ds))
      = false := by
    rw [hn, decide_eq_false (by omega), decide_eq_false (by omega)]
    rfl
  rcases hwww with rfl | rfl
  · have hmerge : pyStrip url = "https://github.com/".data
        ++ (o ++ '/' :: (r ++ ("/pull/".data ++ (ds ++ slash)))) :=
      hurl.trans rfl
    rw [hmerge]
    have hm : matchPRPattern false ("https://github.com/".data
        ++ (o ++ '/' :: (r ++ ("/pull/".data ++ (ds ++ slash)))))
        = some (o, r, ds) :=
      matchPRPattern_of_shape false o r ds slash ho hoc hr2 hrc hd hdc hs
    rw [hm]
    dsimp only
    rw [hb1]
    rw [if_neg (by decide : ¬ ((false : Bool) = true))]
    rw [hb2]
    rw [if_neg (by decide : ¬ ((false : Bool) = true))]
    rw [hn]
  · have hmerge : pyStrip url = "https://www.github.com/".data
        ++ (o ++ '/' :: (r ++ ("/pull/".data ++ (ds ++ slash)))) :=
      hurl.trans rfl
    rw [hmerge]
    have hnone : matchPRPattern false ("https://www.github.com/".data
        ++ (o ++ '/' :: (r ++ ("/pull/".data ++ (ds ++ slash))))) = none := rfl
    rw [hnone]
    have hm : matchPRPattern true ("https://www.github.com/".data
        ++ (o ++ '/' :: (r ++ ("/pull/".data ++ (ds ++ slash)))))
        = some (o, r, ds) :=
      matchPRPattern_of_shape true o r ds slash ho hoc hr2 hrc hd hdc hs
    rw [hm]
    dsimp only
    rw [hb1]
    rw [if_neg (by decide : ¬ ((false : Bool) = true))]
    rw [hb2]
    rw [if_neg (by decide : ¬ ((false : Bool) = true))]
    rw [hn]

theorem IsPRUrl_of_validate {url o r : Text} {n : Nat}
    (h : validate_github_url url = some (o, r, n)) :
    IsPRUrl (pyStrip url) o r n := by
  simp only [validate_github_url] at h
  split at h
  · exact absurd h (by simp)
  · cases hm1 : matchPRPattern false (pyStrip url) with
    | some v =>
      rw [hm1] at h
      obtain ⟨o1, r1, ds1⟩ := v
      dsimp only at h
      split at h
      · exact absurd h (by simp)
      · rename_i hb1
        split at h
        · exact absurd h (by simp)
        · rename_i hb2
          rw [Option.some_inj, Prod.mk.injEq, Prod.mk.injEq] at h
          obtain ⟨hA, hB, hC⟩ := h
          subst hA
          subst hB
          subst hC
          simp only [Bool.or_eq_true, decide_eq_true_eq, not_or] at hb1 hb2
          obtain ⟨h39, h100⟩ := hb1
          obtain ⟨h0, hbig⟩ := hb2
          obtain ⟨ho, hoc, hr2, hrc, hd, hdc, slash, hs, hu⟩ :=
            shape_of_matchPRPattern_false hm1
          exact ⟨[], ds1, slash, Or.inl rfl, ho, hoc, by omega, hr2, hrc,
            by omega, hd, hdc, rfl, by omega, by omega, hs, hu.trans rfl⟩
    | none =>
      rw [hm1] at h
      dsimp only at h
      cases hm2 : matchPRPattern true (pyStrip url) with
      | none =>
        rw [hm2] at h
        exact absurd h (by simp)
      | some v =>
        rw [hm2] at h
        obtain ⟨o1, r1, ds1⟩ := v
        dsimp only at h
        split at h
        · exact absurd h (by simp)
        · rename_i hb1
          split at h
          · exact absurd h (by simp)
          · rename_i hb2
            rw [Option.some_inj, Prod.mk.injEq, Prod.mk.injEq] at h
            obtain ⟨hA, hB, hC⟩ := h
            subst hA
            subst hB
            subst hC
            simp only [Bool.or_eq_true, decide_eq_true_eq, not_or] at hb1 hb2
            obtain ⟨h39, h100⟩ := hb1
            obtain ⟨h0, hbig⟩ := hb2
            obtain ⟨ho, hoc, hr2, hrc, hd, hdc, slash, hs, hu⟩ :=
              shape_of_matchPRPattern_true hm2
            exact ⟨"www.".data, ds1, slash, Or.inr rfl, ho, hoc, by omega,
              hr2, hrc, by omega, hd, hdc, rfl, by omega, by omega, hs,
              hu.trans rfl⟩

theorem pySpace_false_of_isDigit {c : Char} (h : c.isDigit = true) :
    pySpace c = false := by
  cases hp : pySpace c with
  | false => rfl
  | true =>
    simp only [pySpace, Bool.or_eq_true, decide_eq_true_eq] at hp
    rcases hp with ((((hc | hc) | hc) | hc) | hc) | hc <;>
      (subst hc; exact absurd h (by decide))

theorem head_reverse_append {A B : Text} (h : B ≠ []) :
    (A ++ B).reverse.head? = B.reverse.head? := by
  rw [List.reverse_append]
  cases hb : B.reverse with
  | nil => exact absurd (List.reverse_eq_nil_iff.mp hb) h
  | cons c t => rfl

theorem dropWhile_eq_self_of_head {p : Char → Bool} {l : Text}
    (h : ∀ c, l.head? = some c → p c = false) : l.dropWhile p = l := by
  cases l with
  | nil => rfl
  | cons c t =>
    rw [List.dropWhile_cons, if_neg (by simp [h c rfl])]

theorem pyStrip_of_IsPRUrl {url o r : Text} {n : Nat}
    (h : IsPRUrl url o r n) : pyStrip url = url := by
  obtain ⟨www, ds, slash, hwww, ho, hoc, ho39, hr2, hrc, hr100, hd, hdc,
    hn, hpos, hle, hs, hurl⟩ := h
  have hstep1 : url.dropWhile pySpace = url := by
    rw [hurl]
    have hc : "https://".data
        ++ (www ++ ("github.com/".data
          ++ (o ++ '/' :: (r ++ ("/pull/".data ++ (ds ++ slash))))))
        = 'h' :: ("ttps://".data
          ++ (www ++ ("github.com/".data
            ++ (o ++ '/' :: (r ++ ("/pull/".data ++ (ds ++ slash))))))) := rfl
    rw [hc, List.dropWhile_cons, if_neg (by decide)]
  have hlast : ∀ c, url.reverse.head? = some c → pySpace c = false := by
    have hne : ds ++ slash ≠ [] := by
      intro hc
      exact hd (List.append_eq_nil.mp hc).1
    have hch : url.reverse.head? = (ds ++ slash).reverse.head? := by
      rw [hurl]
      rw [head_reverse_append (by
        intro hc
        rw [List.append_eq_nil] at hc
        exact absurd hc.2 (by simp))]
      rw [head_reverse_append (by
        intro hc
        rw [List.append_eq_nil] at hc
        exact absurd hc.2 (by simp))]
      rw [head_reverse_append (by simp)]
      have hsplit : o ++ '/' :: (r ++ ("/pull/".data ++ (ds ++ slash)))
          = o ++ (['/'] ++ (r ++ ("/pull/".data ++ (ds ++ slash)))) := rfl
      rw [hsplit]
      rw [head_reverse_append (by simp)]
      rw [head_reverse_append (by
        intro hc
        rw [List.append_eq_nil] at hc
        exact absurd hc.2 (by
          intro hc2
          rw [List.append_eq_nil] at hc2
          exact hne hc2.2))]
      rw [head_reverse_append (by
        intro hc
        rw [List.append_eq_nil] at hc
        exact hne hc.2)]
      rw [head_reverse_append hne]
    intro c hc
    rw [hch] at hc
    rcases hs with rfl | rfl
    · rw [List.append_nil] at hc
      cases hds : ds.reverse with
      | nil => rw [hds] at hc; exact absurd hc (by simp)
      | cons d t =>
        rw [hds] at hc
        have hcd : c = d := by
          rw [List.head?_cons, Option.some_inj] at hc
          exact hc.symm
        subst hcd
        have hmem : c ∈ ds := by
          rw [← List.mem_reverse, hds]
          exact List.mem_cons_self _ _
        exact pySpace_false_of_isDigit (hdc c hmem)
    · rw [head_reverse_append (by simp)] at hc
      have : c = '/' := by
        rw [show (['/'] : Text).reverse = ['/'] from rfl, List.head?_cons,
          Option.some_inj] at hc
        exact hc.symm
      subst this
      rfl
  unfold pyStrip
  rw [hstep1, dropWhile_eq_self_of_head hlast, List.reverse_reverse]


/-- C3 counterexample: the claim as stated is false, because
`validate_github_url` strips surrounding whitespace before matching: the
string `" https://github.com/a/b/pull/1"` (leading space) matches no URL
of the grammar, yet parsing succeeds. -/
theorem C3_counterexample :
    ¬ ((∀ (url o r : Text) (n : Nat),
          IsPRUrl url o r n → validate_github_url url = some (o, r, n)) ∧
       (∀ url : Text, (∀ (o r : Text) (n : Nat), ¬ IsPRUrl url o r n) →
          validate_github_url url = none)) := by
  rintro ⟨h1, h2⟩
  have hng : ∀ (o r : Text) (n : Nat),
      ¬ IsPRUrl (' ' :: "https://github.com/a/b/pull/1".data) o r n := by
    intro o r n hpr
    obtain ⟨www, ds, slash, hwww, ho, hoc, ho39, hr2, hrc, hr100, hd, hdc,
      hn, hpos, hle, hs, hurl⟩ := hpr
    have hh := congrArg List.head? hurl
    have hrhs : List.head? ("https://".data
        ++ (www ++ ("github.com/".data
          ++ (o ++ '/' :: (r ++ ("/pull/".data ++ (ds ++ slash)))))))
        = some 'h' := rfl
    rw [hrhs] at hh
    exact absurd hh (by decide)
  have hv := h2 (' ' :: "https://github.com/a/b/pull/1".data) hng
  exact absurd hv (by decide)

/-- C3 (amended): the positive direction holds as claimed — every string
matching the grammar
`https://(www.)?github.com/<owner>/<repo>/pull/<number>[/]` with owner
length ≤ 39, repo length ≤ 100 and 0 < number ≤ 999999 parses to exactly
its owner, repo and number — and this extends to every string whose
whitespace-stripped form matches the grammar, because the code strips
before matching; conversely, every string whose stripped form does not
match fails with a validation error (the original negative direction,
stated for the raw string, is refuted by the counterexample). -/
theorem C3_url_validation :
    (∀ (url o r : Text) (n : Nat),
       IsPRUrl url o r n → validate_github_url url = some (o, r, n)) ∧
    (∀ (url o r : Text) (n : Nat),
       IsPRUrl (pyStrip url) o r n → validate_github_url url = some (o, r, n)) ∧
    (∀ url : Text, (∀ (o r : Text) (n : Nat), ¬ IsPRUrl (pyStrip url) o r n) →
       validate_github_url url = none) := by
  refine ⟨?_, validate_of_IsPRUrl, ?_⟩
  · intro url o r n h
    exact validate_of_IsPRUrl url o r n (by rw [pyStrip_of_IsPRUrl h]; exact h)
  · intro url hno
    cases hv : validate_github_url url with
    | none => rfl
    | some v =>
      obtain ⟨o, r, n⟩ := v
      exact absurd (IsPRUrl_of_validate hv) (hno o r n)

/-- Witness for C3: a whitespace-padded valid URL parses; a non-URL is
rejected. -/
theorem C3_url_validation_witness :
    validate_github_url "https://github.com/octocat/hello-world/pull/42".data
      = some ("octocat".data, "hello-world".data, 42) ∧
    validate_github_url " https://github.com/a/b/pull/1".data
      = some ("a".data, "b".data, 1) ∧
    validate_github_url "not a url".data = none := by
  refine ⟨?_, ?_, ?_⟩
  · refine C3_url_validation.1 "https://github.com/octocat/hello-world/pull/42".data
      "octocat".data "hello-world".data 42 ⟨[], "42".data, [], Or.inl rfl,
        ?_, ?_, ?_, ?_, ?_, ?_, ?_, ?_, ?_, ?_, ?_, Or.inl rfl, ?_⟩ <;> decide
  · refine C3_url_validation.2.1 " https://github.com/a/b/pull/1".data
      "a".data "b".data 1 ⟨[], "1".data, [], Or.inl rfl, ?_, ?_, ?_, ?_, ?_,
        ?_, ?_, ?_, ?_, ?_, ?_, Or.inl rfl, ?_⟩ <;> decide
  · refine C3_url_validation.2.2 "not a url".data ?_
    intro o r n hpr
    obtain ⟨www, ds, slash, hwww, ho, hoc, ho39, hr2, hrc, hr100, hd, hdc,
      hn, hpos, hle, hs, hurl⟩ := hpr
    have hh := congrArg List.head? hurl
    have hrhs : List.head? ("https://".data
        ++ (www ++ ("github.com/".data
          ++ (o ++ '/' :: (r ++ ("/pull/".data ++ (ds ++ slash)))))))
        = some 'h' := rfl
    rw [hrhs] at hh
    exact absurd hh (by decide)
